import Mathlib

/-!
Verification development for the OnePager generation service
(`ManagerService` in the repository source).  The definitions below are a
shallow embedding of the service's core pipeline: placeholder extraction,
template rendering (zip text-part substitution), batch packaging, the
request handler, and the AES-256-CBC cipher utility built on Node's
`crypto` primitives.  Machine-level collaborators (the AES block
permutation, the SHA-256 key derivation) are modelled as explicit
parameters carrying their documented contracts.
-/

/- ## Character and string primitives -/

/-- The dollar character, written via its code point. -/
def dollarChar : Char := Char.ofNat 36

/-- The ampersand character. -/
def ampChar : Char := Char.ofNat 38

/-- The backquote character. -/
def backquoteChar : Char := Char.ofNat 96

/-- The single-quote character. -/
def singleQuoteChar : Char := Char.ofNat 39

/-- The colon character used as the cipher-envelope separator. -/
def colonChar : Char := ':'

/-- Helper for `strIncludes`: does `pat` occur as a contiguous sublist of the
second argument?  Mirrors JavaScript `String.prototype.includes`. -/
def containsAux (pat : List Char) : List Char → Bool
  | [] => pat.isEmpty
  | c :: rest => pat.isPrefixOf (c :: rest) || containsAux pat rest

/-- JavaScript `s.includes(pat)` on strings. -/
def strIncludes (s pat : String) : Bool := containsAux pat.toList s.toList

/-- JavaScript `String.prototype.split` on a single separator character:
splits into the (possibly empty) fragments between occurrences of `ch`. -/
def splitChar (ch : Char) : List Char → List (List Char)
  | [] => [[]]
  | c :: rest =>
    match splitChar ch rest with
    | [] => [[]]
    | h :: t => if c = ch then [] :: h :: t else (c :: h) :: t

/- ## JavaScript `String.replace(new RegExp(token, "g"), value)` -/

/-- `GetSubstitution` from the ECMAScript specification, specialised to a
regular expression with no capture groups (the placeholder tokens of this
service contain none): expands the replacement-string escapes
dollar-dollar, dollar-ampersand, dollar-backquote and dollar-quote, and
leaves every other character (including an unrecognised dollar sequence or
a trailing lone dollar) literal.  `m` is the matched text, `b` the part of
the subject before the match, `a` the part after it. -/
def jsDollarExpand (m b a : List Char) : List Char → List Char
  | [] => []
  | [c] => [c]
  | c1 :: c2 :: rest =>
    if c1 = dollarChar then
      if c2 = dollarChar then dollarChar :: jsDollarExpand m b a rest
      else if c2 = ampChar then m ++ jsDollarExpand m b a rest
      else if c2 = backquoteChar then b ++ jsDollarExpand m b a rest
      else if c2 = singleQuoteChar then a ++ jsDollarExpand m b a rest
      else c1 :: jsDollarExpand m b a (c2 :: rest)
    else c1 :: jsDollarExpand m b a (c2 :: rest)

/-- One pass of the global regex replacement performed by `updateSlides`
(`sContent.replace(new RegExp(sPlaceholder, "g"), value)`).  Every token of
the service's fixed vocabulary is a curly-brace-delimited identifier; as a
regular expression such a pattern contains no special construct that
changes its meaning (a brace not forming a quantifier is literal), so the
compiled regex matches exactly the literal token text, and the match found
at each position is the token itself.  The replacement string, however, is
subject to dollar-escape expansion (`jsDollarExpand`).  `orig` is the full
subject (needed for the before/after escapes), `pos` the current offset,
and `fuel` a structural bound (instantiated with the subject's length, so
it never runs out because each step consumes at least one character). -/
def jsReplaceLoop (orig pat val : List Char) : Nat → Nat → List Char → List Char
  | _, _, [] => []
  | 0, _, s => s
  | fuel + 1, pos, c :: rest =>
    if pat.isPrefixOf (c :: rest) then
      jsDollarExpand pat (orig.take pos) (orig.drop (pos + pat.length)) val
        ++ jsReplaceLoop orig pat val fuel (pos + pat.length) (List.drop (pat.length - 1) rest)
    else c :: jsReplaceLoop orig pat val fuel (pos + 1) rest

/-- JavaScript `s.replace(new RegExp(pat, "g"), val)` for the literal-text
patterns of the placeholder vocabulary.  The empty pattern never occurs in
that vocabulary; it is mapped to the identity here. -/
def jsReplaceAll (pat val s : String) : String :=
  if pat.toList.isEmpty then s
  else String.mk (jsReplaceLoop s.toList pat.toList val.toList s.toList.length 0 s.toList)

/-- Plain literal substring replacement (the specification's description of
step 3 of the renderer): every occurrence of `pat` is replaced by `val`
taken verbatim, with no escape expansion. -/
def literalReplaceLoop (pat val : List Char) : Nat → List Char → List Char
  | _, [] => []
  | 0, s => s
  | fuel + 1, c :: rest =>
    if pat.isPrefixOf (c :: rest) then
      val ++ literalReplaceLoop pat val fuel (List.drop (pat.length - 1) rest)
    else c :: literalReplaceLoop pat val fuel rest

/-- Literal (non-pattern) global substring replacement, the specification's
intended semantics for token substitution. -/
def literalReplaceAll (pat val s : String) : String :=
  if pat.toList.isEmpty then s
  else String.mk (literalReplaceLoop pat.toList val.toList s.toList.length s.toList)

/- ## Employee data model (`fetchEmployeeDetails` result shape) -/

/-- A language row as expanded by `fetchEmployeeDetails`. -/
structure LanguageInfo where
  description : String
deriving DecidableEq, Repr

/-- An element of `oDetails.languages`: a link row carrying its language. -/
structure LanguageEntry where
  language : LanguageInfo
deriving DecidableEq, Repr

/-- A skill row. -/
structure SkillInfo where
  name : String
deriving DecidableEq, Repr

/-- An element of `oDetails.skills`. -/
structure SkillEntry where
  skill : SkillInfo
deriving DecidableEq, Repr

/-- A certification row; the name may be absent (nullable column), the code
falls back to the empty string in extraction. -/
structure CertificationInfo where
  name : Option String
deriving DecidableEq, Repr

/-- An element of `oDetails.certifications`: `validFrom` on the link row plus
the expanded certification. -/
structure CertificationEntry where
  validFrom : Option String
  certification : CertificationInfo
deriving DecidableEq, Repr

/-- An expanded project row.  `startDate` is modelled as the numeric time
value that `new Date(...)` yields for the stored date string; the handler
sorts on exactly this value. -/
structure ProjectInfo where
  domain_code : Option String
  name : Option String
  startDate : Int
deriving DecidableEq, Repr

/-- An element of `oDetails.projects`: the link row's `role_code` plus the
expanded project. -/
structure ProjectEntry where
  role_code : Option String
  project : ProjectInfo
deriving DecidableEq, Repr

/-- The employee record assembled by `fetchEmployeeDetails`.  `languages`
and `skills` are `Option` lists because the service's truthiness test
`if (oDetails.languages)` distinguishes a missing (null) association from a
present — possibly empty — array: in JavaScript an empty array is truthy. -/
structure EmployeeDetails where
  fullName : Option String
  certifications : List CertificationEntry
  projects : List ProjectEntry
  languages : Option (List LanguageEntry)
  skills : Option (List SkillEntry)
deriving DecidableEq, Repr

/- ## Placeholder extraction (`extractPlaceholders`) -/

/-- Builds the curly-brace-delimited placeholder token for a field name. -/
def tok (s : String) : String := "\x7b\x7b" ++ s ++ "\x7d\x7d"

/-- The two entries the `i`-th iteration of the certification loop inserts:
`since{i}` from the link row's `validFrom` and `competence{i}` from the
certification name, both defaulting to the empty string when the entry or
the field is missing. -/
def certEntryPair (oDetails : EmployeeDetails) (i : Nat) : List (String × String) :=
  [ (tok ("since" ++ toString i),
      match oDetails.certifications[i]? with
      | none => ""
      | some c => c.validFrom.getD ""),
    (tok ("competence" ++ toString i),
      match oDetails.certifications[i]? with
      | none => ""
      | some c => c.certification.name.getD "") ]

/-- The three entries the `i`-th iteration of the project loop inserts when
project `i` exists; no entries otherwise. -/
def projEntryTriple (oDetails : EmployeeDetails) (i : Nat) : List (String × String) :=
  match oDetails.projects[i]? with
  | none => []
  | some p =>
    [ (tok ("projectRole" ++ toString i), p.role_code.getD ""),
      (tok ("projectIndustry" ++ toString i), p.project.domain_code.getD ""),
      (tok ("projectName" ++ toString i), p.project.name.getD "") ]

/-- The `languages` entry: present exactly when the `languages` association
is non-null (an empty array passes the truthiness test and yields the empty
joined string), holding the comma-joined description list. -/
def languagesPart (oDetails : EmployeeDetails) : List (String × String) :=
  match oDetails.languages with
  | none => []
  | some ls => [(tok "languages", String.intercalate ", " (ls.map (fun l => l.language.description)))]

/-- The `skills` entry: present exactly when the `skills` association is
non-null, holding the newline-joined name list. -/
def skillsPart (oDetails : EmployeeDetails) : List (String × String) :=
  match oDetails.skills with
  | none => []
  | some ss => [(tok "skills", String.intercalate "\n" (ss.map (fun s => s.skill.name)))]

/-- `extractPlaceholders`: the placeholder map, as the ordered list of
(token, value) pairs in the exact insertion order the source builds the
object: `fullName`, the certification loop for `i = 0, 1`, the project loop
for `i = 0 .. 3`, then `languages` and `skills`. -/
def extractPlaceholders (oDetails : EmployeeDetails) : List (String × String) :=
  [(tok "fullName", oDetails.fullName.getD "")]
    ++ certEntryPair oDetails 0 ++ certEntryPair oDetails 1
    ++ projEntryTriple oDetails 0 ++ projEntryTriple oDetails 1
    ++ projEntryTriple oDetails 2 ++ projEntryTriple oDetails 3
    ++ languagesPart oDetails ++ skillsPart oDetails

/-- The fixed placeholder-token vocabulary of the template (§3 of the data
model: `fullName`, `since0/1`, `competence0/1`, `projectRole0-3`,
`projectIndustry0-3`, `projectName0-3`, `languages`, `skills`). -/
def fixedTokens : List String :=
  [tok "fullName", tok "since0", tok "competence0", tok "since1", tok "competence1",
   tok "projectRole0", tok "projectIndustry0", tok "projectName0",
   tok "projectRole1", tok "projectIndustry1", tok "projectName1",
   tok "projectRole2", tok "projectIndustry2", tok "projectName2",
   tok "projectRole3", tok "projectIndustry3", tok "projectName3",
   tok "languages", tok "skills"]

/- ## Zip container model and template rendering -/

/-- A zip container (JSZip instance or generated archive) as its ordered
list of named entries.  For text-bearing parts the content is the decoded
text (JSZip's string codec sits at this boundary); for binary parts it is
the raw byte content. -/
def zipSetFile {α : Type} (name : String) (content : α) (files : List (String × α)) : List (String × α) :=
  if files.any (fun e => e.1 = name) then
    files.map (fun e => if e.1 = name then (name, content) else e)
  else files ++ [(name, content)]

/-- The substitution `updateSlides` applies to one slide's text: the
`reduce` over `Object.keys(placeholders)` (insertion order), each step a
global regex replacement of the token by its value. -/
def applyPlaceholders (placeholders : List (String × String)) (content : String) : String :=
  placeholders.foldl (fun c p => jsReplaceAll p.1 p.2 c) content

/-- The literal-replacement counterpart of `applyPlaceholders`, following
the specification's wording for renderer step 3: every (token, value) pair
applied as a literal substring replacement. -/
def applyPlaceholdersLiteral (placeholders : List (String × String)) (content : String) : String :=
  placeholders.foldl (fun c p => literalReplaceAll p.1 p.2 c) content

/-- `updateSlides`: every part whose name includes `ppt/slides/slide` has
its text substituted and is written back in place; all other parts are
untouched. -/
def updateSlides (oZip : List (String × String)) (placeholders : List (String × String)) :
    List (String × String) :=
  oZip.map (fun entry =>
    if strIncludes entry.1 "ppt/slides/slide" then
      (entry.1, applyPlaceholders placeholders entry.2)
    else entry)

/-- `generateModifiedPPT`: loads the template container, overwrites the
fixed avatar-asset part when the request is internal and the avatar fetch
produced bytes (`avatarBuffer` is the `fetchAvatarBuffer` result, `none`
for a null buffer), substitutes the slides, and serialises.  The template
is passed in as its parsed entry list (`loadTemplateBytes` collaborator). -/
def generateModifiedPPT (oPlaceholders : List (String × String)) (avatarBuffer : Option String)
    (bIsExternal : Bool) (template : List (String × String)) : List (String × String) :=
  let oZip :=
    if !bIsExternal then
      match avatarBuffer with
      | some buf => zipSetFile "ppt/media/image23.png" buf template
      | none => template
    else template
  updateSlides oZip oPlaceholders

/- ## Batch packaging (`sendOnePagerResponse`) -/

/-- The dispatched response: metadata (content type, attachment filename)
plus either the single passed-through buffer or the assembled archive's
entry list.  The `single` buffer is optional because the source indexes
`aPPTBuffers[0]`, which is `undefined` for an empty batch. -/
inductive OPResponse (α : Type) where
  | single (contentType : String) (filename : String) (buffer : Option α)
  | archive (contentType : String) (filename : String) (entries : List (String × α))
deriving DecidableEq, Repr

/-- The attachment filename template of both response branches:
the interpolation `OP_<value>.pptx`. -/
def opFilename (value : String) : String := "OP_" ++ value ++ ".pptx"

/-- The `forEach` loop of the multi-document branch: adds entry
`OP_<ids[index]>.pptx` for each buffer into the fresh archive, in order.
A missing identifier at `index` interpolates as the text `undefined`;
`zipSetFile` models JSZip's replace-on-same-name semantics. -/
def buildArchive {α : Type} (aEmployeeIDs : List String) :
    Nat → List (String × α) → List α → List (String × α)
  | _, acc, [] => acc
  | index, acc, buffer :: rest =>
    buildArchive aEmployeeIDs (index + 1)
      (zipSetFile (opFilename (aEmployeeIDs[index]?.getD "undefined")) buffer acc)
      rest

/-- The presentation MIME type used for the single-document response. -/
def pptContentType : String :=
  "application/vnd.openxmlformats-officedocument.presentationml.presentation"

/-- `sendOnePagerResponse`: more than one buffer is bundled into a new
archive under the fixed name `OnePagers.zip`; otherwise the sole buffer is
passed through with filename `OP_<first id>.pptx`. -/
def sendOnePagerResponse {α : Type} (aPPTBuffers : List α) (aEmployeeIDs : List String) :
    OPResponse α :=
  if aPPTBuffers.length > 1 then
    .archive "application/zip" "OnePagers.zip" (buildArchive aEmployeeIDs 0 [] aPPTBuffers)
  else
    .single pptContentType (opFilename (aEmployeeIDs[0]?.getD "undefined"))
      (aPPTBuffers[0]?)

/- ## The generateOP handler -/

/-- An error raised through `cds.error(message, { code })`. -/
structure OPError where
  message : String
  code : Option Nat
deriving DecidableEq, Repr

/-- The handler's in-place sort of `oEmployeeDetails.projects`: descending
by the project's start date, stable (JavaScript `Array.prototype.sort` is
stable, comparator `new Date(b) - new Date(a)`). -/
def sortProjectsDesc (projects : List ProjectEntry) : List ProjectEntry :=
  projects.mergeSort (fun a b => b.project.startDate ≤ a.project.startDate)

/-- The anonymized name literal substituted in external mode. -/
def anonymizedName : String := "Capgemini Employee"

/-- The per-employee loop of `handleGenerateOP`: fetch the details (a
missing profile raises the 404 error naming the identifier), sort the
projects, anonymize the name in external mode, extract placeholders and
render; the rendered buffers accumulate in request order.  `fetchD` and
`fetchAv` are the data-access collaborators, `template` the parsed
template container. -/
def generateOPLoop (fetchD : String → Option EmployeeDetails) (fetchAv : String → Option String)
    (template : List (String × String)) (sType : String) :
    List String → Except OPError (List (List (String × String)))
  | [] => .ok []
  | employeeID :: rest =>
    match fetchD employeeID with
    | none => .error ⟨"There are no Employee with ID: " ++ employeeID, some 404⟩
    | some details =>
      let sorted := { details with projects := sortProjectsDesc details.projects }
      let bIsExternal := sType == "external"
      let renamed := if bIsExternal then { sorted with fullName := some anonymizedName } else sorted
      let oPlaceholders := extractPlaceholders renamed
      let doc := generateModifiedPPT oPlaceholders (fetchAv employeeID) bIsExternal template
      match generateOPLoop fetchD fetchAv template sType rest with
      | .error e => .error e
      | .ok docs => .ok (doc :: docs)

/-- `handleGenerateOP`: a missing (null) identifier array raises the 400
validation error; a present array — the empty array included, being truthy
in JavaScript — enters the loop, and the buffers are packaged by
`sendOnePagerResponse`.  Errors escaping the `try` block are re-raised with
the `Error while generating OnePager!` prefix, the code preserved. -/
def handleGenerateOP (fetchD : String → Option EmployeeDetails) (fetchAv : String → Option String)
    (template : List (String × String)) (aEmployeeIDs : Option (List String)) (sType : String) :
    Except OPError (OPResponse (List (String × String))) :=
  match aEmployeeIDs with
  | none => .error ⟨"Error while generating OnePager! There are no valid Employee ID array", some 400⟩
  | some ids =>
    match generateOPLoop fetchD fetchAv template sType ids with
    | .error e => .error ⟨"Error while generating OnePager! " ++ e.message, e.code⟩
    | .ok buffers => .ok (sendOnePagerResponse buffers ids)

/- ## Symmetric cipher utility (`_generateKey`, `_encrypt`, `_decrypt`) -/

/-- Bytewise exclusive-or of two equal-length byte lists (CBC chaining). -/
def xorBytes (a b : List Nat) : List Nat := List.zipWith (fun x y => Nat.xor x y) a b

/-- The external AES-256 block permutation behind Node's
`createCipheriv("aes-256-cbc", ...)`, as its documented contract: a keyed
pair of mutually inverse maps on 16-byte blocks that preserve block length
and byte range. -/
structure BlockCipher where
  enc : List Nat → List Nat → List Nat
  dec : List Nat → List Nat → List Nat
  enc_length : ∀ key block, block.length = 16 → (enc key block).length = 16
  enc_bytes : ∀ key block, block.length = 16 → (∀ x ∈ block, x < 256) →
    ∀ x ∈ enc key block, x < 256
  dec_enc : ∀ key block, block.length = 16 → (∀ x ∈ block, x < 256) →
    dec key (enc key block) = block

/-- PKCS#7 padding to the 16-byte AES block size, as applied by the
library's `cipher.update`/`cipher.final` pair. -/
def padPKCS7 (data : List Nat) : List Nat :=
  let n := 16 - data.length % 16
  data ++ List.replicate n n

/-- PKCS#7 unpadding with the full validity check OpenSSL performs in
`decipher.final`: the last byte `n` must lie in `1 .. 16` and the last `n`
bytes must all equal `n`; `none` models the `bad decrypt` exception. -/
def unpadPKCS7 (data : List Nat) : Option (List Nat) :=
  match data.getLast? with
  | none => none
  | some n =>
    if 1 ≤ n ∧ n ≤ 16 ∧ n ≤ data.length ∧ data.drop (data.length - n) = List.replicate n n then
      some (data.take (data.length - n))
    else none

/-- Splits a byte list into 16-byte blocks (exact when the length is a
multiple of 16).  The first argument is a structural bound, instantiated
with the list length. -/
def chunksAux : Nat → List Nat → List (List Nat)
  | _, [] => []
  | 0, _ => []
  | fuel + 1, l => l.take 16 :: chunksAux fuel (l.drop 16)

/-- The 16-byte block decomposition of a byte list. -/
def chunks16 (l : List Nat) : List (List Nat) := chunksAux l.length l

/-- CBC-mode encryption over the block permutation: each plaintext block is
xored with the previous ciphertext block (initially the IV) before the
block cipher is applied. -/
def cbcEncBlocks (C : BlockCipher) (key : List Nat) : List Nat → List (List Nat) → List (List Nat)
  | _, [] => []
  | prev, b :: bs =>
    let c := C.enc key (xorBytes prev b)
    c :: cbcEncBlocks C key c bs

/-- CBC-mode decryption over the block permutation. -/
def cbcDecBlocks (C : BlockCipher) (key : List Nat) : List Nat → List (List Nat) → List (List Nat)
  | _, [] => []
  | prev, cb :: cbs => xorBytes prev (C.dec key cb) :: cbcDecBlocks C key cb cbs

/-- The lowercase hexadecimal digit for a value below 16 (Node buffers
serialise to lowercase hex). -/
def hexDigit (n : Nat) : Char :=
  if n < 10 then Char.ofNat (48 + n) else Char.ofNat (87 + n)

/-- `buffer.toString("hex")`: two lowercase hex digits per byte. -/
def hexEncodeBytes (b : List Nat) : List Char :=
  (b.map (fun x => [hexDigit (x / 16), hexDigit (x % 16)])).flatten

/-- The value of one hexadecimal digit character, upper or lower case. -/
def hexVal (c : Char) : Option Nat :=
  if 48 ≤ c.toNat ∧ c.toNat ≤ 57 then some (c.toNat - 48)
  else if 97 ≤ c.toNat ∧ c.toNat ≤ 102 then some (c.toNat - 87)
  else if 65 ≤ c.toNat ∧ c.toNat ≤ 70 then some (c.toNat - 55)
  else none

/-- `Buffer.from(str, "hex")`: lenient pairwise decoding that stops at the
first invalid pair or lone trailing digit, returning the bytes decoded so
far. -/
def hexDecodeLenient : List Char → List Nat
  | c1 :: c2 :: rest =>
    match hexVal c1, hexVal c2 with
    | some h, some l => (16 * h + l) :: hexDecodeLenient rest
    | _, _ => []
  | _ => []

/-- `_encrypt`: derives the key from the seed (`_generateKey`, the SHA-256
digest modelled by the map `H`), CBC-encrypts the padded plaintext bytes
under the given fresh 16-byte IV (the `crypto.randomBytes(16)` draw made
explicit), and returns `hex(iv) ++ ":" ++ hex(ciphertext)`.  Node would
reject an IV that is not 16 bytes or a key that is not 32 bytes; the
theorems below carry those well-formedness facts as hypotheses. -/
def encryptData (C : BlockCipher) (H : String → List Nat) (data : List Nat) (seed : String)
    (iv : List Nat) : String :=
  let key := H seed
  let ct := (cbcEncBlocks C key iv (chunks16 (padPKCS7 data))).flatten
  String.mk (hexEncodeBytes iv) ++ ":" ++ String.mk (hexEncodeBytes ct)

/-- `_decrypt`: splits the envelope on `:` (array destructuring takes the
first two fragments; a missing second fragment makes `decipher.update`
throw), hex-decodes both halves leniently, and fails — modelled by `none` —
exactly where Node throws: a non-16-byte IV in `createDecipheriv`, a
non-32-byte key, a ciphertext that is not a nonzero multiple of the block
size, or an invalid final padding. -/
def decryptData (C : BlockCipher) (H : String → List Nat) (hashedData : String) (seed : String) :
    Option (List Nat) :=
  let key := H seed
  let parts := splitChar colonChar hashedData.toList
  match parts[1]? with
  | none => none
  | some encHex =>
    let iv := hexDecodeLenient (parts[0]?.getD [])
    if key.length = 32 ∧ iv.length = 16 then
      let ct := hexDecodeLenient encHex
      if ct.length % 16 = 0 ∧ ct ≠ [] then
        unpadPKCS7 (cbcDecBlocks C key iv (chunks16 ct)).flatten
      else none
    else none

/- ## General lemmas about the embedding -/

/-- Looking a key up past a head entry with a different key. -/
theorem lookup_cons_ne {β : Type} (key k : String) (v : β) (l : List (String × β))
    (h : (key == k) = false) : List.lookup key ((k, v) :: l) = List.lookup key l := by
  simp [List.lookup, h]

/-- Lookup distributes over append: the first list wins when it has the key. -/
theorem lookup_append {β : Type} (key : String) (l₁ l₂ : List (String × β)) :
    List.lookup key (l₁ ++ l₂)
      = match List.lookup key l₁ with
        | some v => some v
        | none => List.lookup key l₂ := by
  induction l₁ with
  | nil => simp [List.lookup]
  | cons p rest ih =>
    cases hp : (key == p.1) <;> simp [List.lookup, hp, ih]

/-- A list is a prefix of itself, in the boolean sense. -/
theorem isPrefixOf_self (l : List Char) : l.isPrefixOf l = true := by
  induction l with
  | nil => rfl
  | cons c rest ih => simp [List.isPrefixOf, ih]

/-- A suffix is always found by `strIncludes`. -/
theorem strIncludes_append_right (a b : String) : strIncludes (a ++ b) b = true := by
  have hstep : ∀ (l m : List Char), containsAux m (l ++ m) = true := by
    intro l m
    induction l with
    | nil =>
      cases m with
      | nil => rfl
      | cons c rest => simp [containsAux, isPrefixOf_self]
    | cons c rest ih => simp [containsAux, ih]
  have : (a ++ b).toList = a.toList ++ b.toList := by simp [String.toList]
  simp [strIncludes, this, hstep]

/- ## C5: rendering with empty placeholders and no avatar is the identity -/

/-- C5: For every template container, rendering with an empty placeholder
map and no avatar bytes returns the container unchanged: every slide text
part keeps its decoded text and every other part is byte-identical. -/
theorem c5_render_empty_identity (template : List (String × String)) (bIsExternal : Bool) :
    generateModifiedPPT [] none bIsExternal template = template := by
  cases bIsExternal <;>
    simp [generateModifiedPPT, updateSlides, applyPlaceholders]

/- ## C10: external mode only rewrites the fullName placeholder -/

/-- C10: For every employee profile, the placeholder map extracted after
the external-mode rename agrees with the internal-mode map on every key
other than the `fullName` token: the rename touches only the profile's
full name, and only the `fullName` entry reads it. -/
theorem c10_mode_frame (oDetails : EmployeeDetails) (key : String)
    (hkey : key ≠ tok "fullName") :
    List.lookup key (extractPlaceholders { oDetails with fullName := some anonymizedName })
      = List.lookup key (extractPlaceholders oDetails) := by
  have hb : (key == tok "fullName") = false := by simpa using hkey
  calc
    List.lookup key (extractPlaceholders { oDetails with fullName := some anonymizedName })
        = List.lookup key ((tok "fullName", anonymizedName) ::
            (certEntryPair oDetails 0 ++ certEntryPair oDetails 1 ++
             projEntryTriple oDetails 0 ++ projEntryTriple oDetails 1 ++
             projEntryTriple oDetails 2 ++ projEntryTriple oDetails 3 ++
             languagesPart oDetails ++ skillsPart oDetails)) := rfl
    _ = List.lookup key
            (certEntryPair oDetails 0 ++ certEntryPair oDetails 1 ++
             projEntryTriple oDetails 0 ++ projEntryTriple oDetails 1 ++
             projEntryTriple oDetails 2 ++ projEntryTriple oDetails 3 ++
             languagesPart oDetails ++ skillsPart oDetails) := lookup_cons_ne _ _ _ _ hb
    _ = List.lookup key ((tok "fullName", oDetails.fullName.getD "") ::
            (certEntryPair oDetails 0 ++ certEntryPair oDetails 1 ++
             projEntryTriple oDetails 0 ++ projEntryTriple oDetails 1 ++
             projEntryTriple oDetails 2 ++ projEntryTriple oDetails 3 ++
             languagesPart oDetails ++ skillsPart oDetails)) := (lookup_cons_ne _ _ _ _ hb).symm
    _ = List.lookup key (extractPlaceholders oDetails) := rfl

/-- A concrete profile for exercising the mode-frame theorem. -/
def c10Profile : EmployeeDetails :=
  { fullName := some "Jane Doe", certifications := [], projects := [],
    languages := none, skills := some [⟨⟨"CAP"⟩⟩] }

/-- Witness for C10 at a concrete profile and the `skills` key. -/
theorem c10_mode_frame_witness :
    tok "skills" ≠ tok "fullName" ∧
      List.lookup (tok "skills")
          (extractPlaceholders { c10Profile with fullName := some anonymizedName })
        = List.lookup (tok "skills") (extractPlaceholders c10Profile) :=
  ⟨by decide, c10_mode_frame c10Profile (tok "skills") (by decide)⟩

/- ## C2: empty identifier lists evade validation and reach packaging -/

/-- A profile store with no entries, for exercising the handler. -/
def noProfiles : String → Option EmployeeDetails := fun _ => none

/-- An avatar store with no entries. -/
def noAvatars : String → Option String := fun _ => none

/-- C2: a missing identifier array is rejected with the 400 validation
error, but a present-and-empty array passes the truthiness check
(`aEmployeeIDs || cds.error(...)` — an empty JavaScript array is truthy),
runs the loop zero times, and reaches `sendOnePagerResponse`, which emits a
single-document response with filename `OP_undefined.pptx` and an undefined
buffer instead of failing validation. -/
theorem c2_empty_list_evades_validation :
    handleGenerateOP noProfiles noAvatars [] (some []) "internal"
        = .ok (.single pptContentType "OP_undefined.pptx" none)
      ∧ handleGenerateOP noProfiles noAvatars [] none "internal"
        = .error ⟨"Error while generating OnePager! There are no valid Employee ID array", some 400⟩ :=
  ⟨rfl, rfl⟩

/- ## C3: a missing profile aborts the whole batch with the 404 error -/

/-- The per-employee loop propagates the first missing profile as the 404
error naming that identifier, and produces no document list. -/
theorem generateOPLoop_error_of_missing (fetchD : String → Option EmployeeDetails)
    (fetchAv : String → Option String) (template : List (String × String)) (sType : String) :
    ∀ ids : List String, (∃ id ∈ ids, fetchD id = none) →
      ∃ bad ∈ ids, fetchD bad = none ∧
        generateOPLoop fetchD fetchAv template sType ids
          = .error ⟨"There are no Employee with ID: " ++ bad, some 404⟩ := by
  intro ids
  induction ids with
  | nil => rintro ⟨id, hmem, _⟩; exact absurd hmem (List.not_mem_nil id)
  | cons id rest ih =>
    rintro ⟨cand, hmem, hnone⟩
    cases hfetch : fetchD id with
    | none =>
      exact ⟨id, List.mem_cons_self id rest, hfetch, by simp [generateOPLoop, hfetch]⟩
    | some d =>
      have hcand : cand ∈ rest := by
        rcases List.mem_cons.mp hmem with rfl | h
        · rw [hfetch] at hnone; exact absurd hnone (by simp)
        · exact h
      obtain ⟨bad, hbadmem, hbadnone, herr⟩ := ih ⟨cand, hcand, hnone⟩
      refine ⟨bad, List.mem_cons_of_mem id hbadmem, hbadnone, ?_⟩
      simp [generateOPLoop, hfetch, herr]

/-- C3: For every generation request containing an identifier with no
matching profile, the handler fails with the NotFound (404) error, its
message containing the offending identifier, and no response — neither a
single document nor a partial archive — is produced. -/
theorem c3_notfound_aborts_batch (fetchD : String → Option EmployeeDetails)
    (fetchAv : String → Option String) (template : List (String × String))
    (ids : List String) (sType : String) (hbad : ∃ id ∈ ids, fetchD id = none) :
    ∃ bad ∈ ids, fetchD bad = none ∧
      handleGenerateOP fetchD fetchAv template (some ids) sType
        = .error ⟨"Error while generating OnePager! There are no Employee with ID: " ++ bad,
                  some 404⟩ ∧
      strIncludes ("Error while generating OnePager! There are no Employee with ID: " ++ bad)
        bad = true := by
  obtain ⟨bad, hmem, hnone, herr⟩ :=
    generateOPLoop_error_of_missing fetchD fetchAv template sType ids hbad
  refine ⟨bad, hmem, hnone, ?_, ?_⟩
  · simp [handleGenerateOP, herr, ← String.append_assoc]
  · exact strIncludes_append_right "Error while generating OnePager! There are no Employee with ID: " bad

/-- Witness for C3: a one-element batch whose identifier has no profile. -/
theorem c3_notfound_aborts_batch_witness :
    (∃ id ∈ ["E9"], noProfiles id = none) ∧
      ∃ bad ∈ ["E9"], noProfiles bad = none ∧
        handleGenerateOP noProfiles noAvatars [] (some ["E9"]) "internal"
          = .error ⟨"Error while generating OnePager! There are no Employee with ID: " ++ bad,
                    some 404⟩ ∧
        strIncludes ("Error while generating OnePager! There are no Employee with ID: " ++ bad)
          bad = true :=
  ⟨⟨"E9", by simp, rfl⟩,
   c3_notfound_aborts_batch noProfiles noAvatars [] ["E9"] "internal" ⟨"E9", by simp, rfl⟩⟩

/- ## Lookup lemmas for the placeholder map -/

/-- A key absent from the first list is looked up in the second. -/
theorem lookup_append_none {β : Type} {key : String} {l₁ : List (String × β)}
    (l₂ : List (String × β)) (h : List.lookup key l₁ = none) :
    List.lookup key (l₁ ++ l₂) = List.lookup key l₂ := by
  rw [lookup_append, h]

/-- A key found in the first list ignores the second. -/
theorem lookup_append_some {β : Type} {key : String} {l₁ : List (String × β)} {v : β}
    (l₂ : List (String × β)) (h : List.lookup key l₁ = some v) :
    List.lookup key (l₁ ++ l₂) = some v := by
  rw [lookup_append, h]

/-- A key absent from the second list reduces lookup over an append to the
first list. -/
theorem lookup_append_right_none {β : Type} {key : String} {l₂ : List (String × β)}
    (l₁ : List (String × β)) (h : List.lookup key l₂ = none) :
    List.lookup key (l₁ ++ l₂) = List.lookup key l₁ := by
  rw [lookup_append]
  cases h' : List.lookup key l₁ <;> simp [h, h']

/-- A key that matches neither certification token misses the pair. -/
theorem lookup_certEntryPair_ne (d : EmployeeDetails) (i : Nat) (key : String)
    (h1 : (key == tok ("since" ++ toString i)) = false)
    (h2 : (key == tok ("competence" ++ toString i)) = false) :
    List.lookup key (certEntryPair d i) = none := by
  simp [certEntryPair, List.lookup, h1, h2]

/-- A key that matches none of the three project tokens misses the triple,
whether or not project `i` exists. -/
theorem lookup_projEntryTriple_ne (d : EmployeeDetails) (i : Nat) (key : String)
    (h1 : (key == tok ("projectRole" ++ toString i)) = false)
    (h2 : (key == tok ("projectIndustry" ++ toString i)) = false)
    (h3 : (key == tok ("projectName" ++ toString i)) = false) :
    List.lookup key (projEntryTriple d i) = none := by
  cases hp : d.projects[i]? <;> simp [projEntryTriple, hp, List.lookup, h1, h2, h3]

/-- A key other than the languages token misses the languages part. -/
theorem lookup_languagesPart_ne (d : EmployeeDetails) (key : String)
    (h : (key == tok "languages") = false) :
    List.lookup key (languagesPart d) = none := by
  cases hl : d.languages <;> simp [languagesPart, hl, List.lookup, h]

/-- A key other than the skills token misses the skills part. -/
theorem lookup_skillsPart_ne (d : EmployeeDetails) (key : String)
    (h : (key == tok "skills") = false) :
    List.lookup key (skillsPart d) = none := by
  cases hs : d.skills <;> simp [skillsPart, hs, List.lookup, h]

/-- Lookup of a key that belongs to the project section reduces to the
project triples alone. -/
theorem lookup_extract_to_proj (d : EmployeeDetails) (key : String)
    (h0 : (key == tok "fullName") = false)
    (hc0 : List.lookup key (certEntryPair d 0) = none)
    (hc1 : List.lookup key (certEntryPair d 1) = none)
    (hl : List.lookup key (languagesPart d) = none)
    (hs : List.lookup key (skillsPart d) = none) :
    List.lookup key (extractPlaceholders d)
      = List.lookup key (projEntryTriple d 0 ++ (projEntryTriple d 1 ++
          (projEntryTriple d 2 ++ projEntryTriple d 3))) := by
  have htail : List.lookup key (languagesPart d ++ skillsPart d) = none := by
    rw [lookup_append_none _ hl]; exact hs
  simp only [extractPlaceholders, List.append_assoc, List.cons_append, List.nil_append]
  rw [lookup_cons_ne _ _ _ _ h0, lookup_append_none _ hc0, lookup_append_none _ hc1]
  rw [show projEntryTriple d 0 ++ (projEntryTriple d 1 ++ (projEntryTriple d 2 ++
        (projEntryTriple d 3 ++ (languagesPart d ++ skillsPart d))))
      = (projEntryTriple d 0 ++ (projEntryTriple d 1 ++ (projEntryTriple d 2 ++
          projEntryTriple d 3))) ++ (languagesPart d ++ skillsPart d) by
    simp [List.append_assoc]]
  exact lookup_append_right_none _ htail

/-- Lookup of the languages or skills token reduces to the final two parts. -/
theorem lookup_extract_to_tail (d : EmployeeDetails) (key : String)
    (h0 : (key == tok "fullName") = false)
    (hc0 : List.lookup key (certEntryPair d 0) = none)
    (hc1 : List.lookup key (certEntryPair d 1) = none)
    (hp0 : List.lookup key (projEntryTriple d 0) = none)
    (hp1 : List.lookup key (projEntryTriple d 1) = none)
    (hp2 : List.lookup key (projEntryTriple d 2) = none)
    (hp3 : List.lookup key (projEntryTriple d 3) = none) :
    List.lookup key (extractPlaceholders d)
      = List.lookup key (languagesPart d ++ skillsPart d) := by
  simp only [extractPlaceholders, List.append_assoc, List.cons_append, List.nil_append]
  rw [lookup_cons_ne _ _ _ _ h0, lookup_append_none _ hc0, lookup_append_none _ hc1,
      lookup_append_none _ hp0, lookup_append_none _ hp1, lookup_append_none _ hp2,
      lookup_append_none _ hp3]

/- ## C6: languages and skills keys track association presence, not emptiness -/

/-- Amended C6: the `languages` key is omitted exactly when the `languages`
association is missing (null); when the association is present — even as an
empty list — the key is present and holds the comma-joined description
list, the empty string included.  Likewise for `skills` with the
newline-joined name list.  (The claim as frozen says the key is omitted for
an empty list; the code's truthiness test keeps it, because an empty array
is truthy.) -/
theorem c6_language_skill_keys (oDetails : EmployeeDetails) :
    (oDetails.languages = none →
      List.lookup (tok "languages") (extractPlaceholders oDetails) = none) ∧
    (∀ ls, oDetails.languages = some ls →
      List.lookup (tok "languages") (extractPlaceholders oDetails)
        = some (String.intercalate ", " (ls.map (fun l => l.language.description)))) ∧
    (oDetails.skills = none →
      List.lookup (tok "skills") (extractPlaceholders oDetails) = none) ∧
    (∀ ss, oDetails.skills = some ss →
      List.lookup (tok "skills") (extractPlaceholders oDetails)
        = some (String.intercalate "\n" (ss.map (fun s => s.skill.name)))) := by
  refine ⟨?_, ?_, ?_, ?_⟩
  · intro hnone
    rw [lookup_extract_to_tail _ _ (by decide)
        (lookup_certEntryPair_ne _ 0 _ (by decide) (by decide))
        (lookup_certEntryPair_ne _ 1 _ (by decide) (by decide))
        (lookup_projEntryTriple_ne _ 0 _ (by decide) (by decide) (by decide))
        (lookup_projEntryTriple_ne _ 1 _ (by decide) (by decide) (by decide))
        (lookup_projEntryTriple_ne _ 2 _ (by decide) (by decide) (by decide))
        (lookup_projEntryTriple_ne _ 3 _ (by decide) (by decide) (by decide))]
    rw [lookup_append_none _ (by simp [languagesPart, hnone])]
    exact lookup_skillsPart_ne _ _ (by decide)
  · intro ls hsome
    rw [lookup_extract_to_tail _ _ (by decide)
        (lookup_certEntryPair_ne _ 0 _ (by decide) (by decide))
        (lookup_certEntryPair_ne _ 1 _ (by decide) (by decide))
        (lookup_projEntryTriple_ne _ 0 _ (by decide) (by decide) (by decide))
        (lookup_projEntryTriple_ne _ 1 _ (by decide) (by decide) (by decide))
        (lookup_projEntryTriple_ne _ 2 _ (by decide) (by decide) (by decide))
        (lookup_projEntryTriple_ne _ 3 _ (by decide) (by decide) (by decide))]
    simp [languagesPart, hsome, List.lookup]
  · intro hnone
    rw [lookup_extract_to_tail _ _ (by decide)
        (lookup_certEntryPair_ne _ 0 _ (by decide) (by decide))
        (lookup_certEntryPair_ne _ 1 _ (by decide) (by decide))
        (lookup_projEntryTriple_ne _ 0 _ (by decide) (by decide) (by decide))
        (lookup_projEntryTriple_ne _ 1 _ (by decide) (by decide) (by decide))
        (lookup_projEntryTriple_ne _ 2 _ (by decide) (by decide) (by decide))
        (lookup_projEntryTriple_ne _ 3 _ (by decide) (by decide) (by decide))]
    rw [lookup_append_none _ (lookup_languagesPart_ne _ _ (by decide))]
    simp [skillsPart, hnone, List.lookup]
  · intro ss hsome
    rw [lookup_extract_to_tail _ _ (by decide)
        (lookup_certEntryPair_ne _ 0 _ (by decide) (by decide))
        (lookup_certEntryPair_ne _ 1 _ (by decide) (by decide))
        (lookup_projEntryTriple_ne _ 0 _ (by decide) (by decide) (by decide))
        (lookup_projEntryTriple_ne _ 1 _ (by decide) (by decide) (by decide))
        (lookup_projEntryTriple_ne _ 2 _ (by decide) (by decide) (by decide))
        (lookup_projEntryTriple_ne _ 3 _ (by decide) (by decide) (by decide))]
    rw [lookup_append_none _ (lookup_languagesPart_ne _ _ (by decide))]
    simp [skillsPart, hsome, List.lookup]

/-- A profile whose languages and skills associations are present but empty. -/
def emptyListsProfile : EmployeeDetails :=
  { fullName := some "N", certifications := [], projects := [],
    languages := some [], skills := some [] }

/-- Counterexample to C6 as frozen: for a profile whose languages and
skills lists are present but empty, the extracted map does contain the
`languages` and `skills` keys (holding the empty string), since an empty
JavaScript array passes the `if (oDetails.languages)` truthiness test. -/
theorem c6_counterexample_empty_lists :
    List.lookup (tok "languages") (extractPlaceholders emptyListsProfile) = some ""
      ∧ List.lookup (tok "skills") (extractPlaceholders emptyListsProfile) = some "" := by
  decide

/-- Witness for C6 (amended): a profile with one language and a missing
skills association exercises both the present and the absent branch. -/
theorem c6_language_skill_keys_witness :
    ({ fullName := none, certifications := [], projects := [],
       languages := some [⟨⟨"German"⟩⟩], skills := none : EmployeeDetails }).languages
        = some [⟨⟨"German"⟩⟩] ∧
    List.lookup (tok "languages")
        (extractPlaceholders
          { fullName := none, certifications := [], projects := [],
            languages := some [⟨⟨"German"⟩⟩], skills := none })
      = some "German" ∧
    List.lookup (tok "skills")
        (extractPlaceholders
          { fullName := none, certifications := [], projects := [],
            languages := some [⟨⟨"German"⟩⟩], skills := none })
      = none :=
  ⟨rfl,
   (c6_language_skill_keys _).2.1 [⟨⟨"German"⟩⟩] rfl,
   (c6_language_skill_keys _).2.2.1 rfl⟩

/- ## C7: project placeholder keys exist exactly for existing projects -/

/-- C7: For every profile and index `i < 4`: when project `i` exists, the
extracted map holds `projectRole{i}`, `projectIndustry{i}` and
`projectName{i}` with that project's values; when it does not, none of the
three keys is present, leaving the template tokens un-substituted. -/
theorem c7_project_keys (oDetails : EmployeeDetails) (i : Nat) (hi : i < 4) :
    (∀ p, oDetails.projects[i]? = some p →
        List.lookup (tok ("projectRole" ++ toString i)) (extractPlaceholders oDetails)
          = some (p.role_code.getD "") ∧
        List.lookup (tok ("projectIndustry" ++ toString i)) (extractPlaceholders oDetails)
          = some (p.project.domain_code.getD "") ∧
        List.lookup (tok ("projectName" ++ toString i)) (extractPlaceholders oDetails)
          = some (p.project.name.getD "")) ∧
    (oDetails.projects[i]? = none →
        List.lookup (tok ("projectRole" ++ toString i)) (extractPlaceholders oDetails) = none ∧
        List.lookup (tok ("projectIndustry" ++ toString i)) (extractPlaceholders oDetails) = none ∧
        List.lookup (tok ("projectName" ++ toString i)) (extractPlaceholders oDetails) = none) := by
  interval_cases i
  · constructor
    · intro p hp
      refine ⟨?_, ?_, ?_⟩ <;>
        rw [lookup_extract_to_proj _ _ (by decide)
            (lookup_certEntryPair_ne _ 0 _ (by decide) (by decide))
            (lookup_certEntryPair_ne _ 1 _ (by decide) (by decide))
            (lookup_languagesPart_ne _ _ (by decide))
            (lookup_skillsPart_ne _ _ (by decide))] <;>
        exact lookup_append_some _ (by
          simp [projEntryTriple, hp, List.lookup,
            show (tok ("projectIndustry" ++ toString 0) == tok ("projectRole" ++ toString 0)) = false from by decide,
            show (tok ("projectName" ++ toString 0) == tok ("projectRole" ++ toString 0)) = false from by decide,
            show (tok ("projectName" ++ toString 0) == tok ("projectIndustry" ++ toString 0)) = false from by decide])
    · intro hp
      refine ⟨?_, ?_, ?_⟩ <;>
        rw [lookup_extract_to_proj _ _ (by decide)
            (lookup_certEntryPair_ne _ 0 _ (by decide) (by decide))
            (lookup_certEntryPair_ne _ 1 _ (by decide) (by decide))
            (lookup_languagesPart_ne _ _ (by decide))
            (lookup_skillsPart_ne _ _ (by decide))] <;>
        rw [lookup_append_none _ (by simp [projEntryTriple, hp, List.lookup])] <;>
        rw [lookup_append_none _ (lookup_projEntryTriple_ne _ 1 _ (by decide) (by decide) (by decide))] <;>
        rw [lookup_append_none _ (lookup_projEntryTriple_ne _ 2 _ (by decide) (by decide) (by decide))] <;>
        exact lookup_projEntryTriple_ne _ 3 _ (by decide) (by decide) (by decide)
  · constructor
    · intro p hp
      refine ⟨?_, ?_, ?_⟩ <;>
        rw [lookup_extract_to_proj _ _ (by decide)
            (lookup_certEntryPair_ne _ 0 _ (by decide) (by decide))
            (lookup_certEntryPair_ne _ 1 _ (by decide) (by decide))
            (lookup_languagesPart_ne _ _ (by decide))
            (lookup_skillsPart_ne _ _ (by decide))] <;>
        rw [lookup_append_none _ (lookup_projEntryTriple_ne _ 0 _ (by decide) (by decide) (by decide))] <;>
        exact lookup_append_some _ (by
          simp [projEntryTriple, hp, List.lookup,
            show (tok ("projectIndustry" ++ toString 1) == tok ("projectRole" ++ toString 1)) = false from by decide,
            show (tok ("projectName" ++ toString 1) == tok ("projectRole" ++ toString 1)) = false from by decide,
            show (tok ("projectName" ++ toString 1) == tok ("projectIndustry" ++ toString 1)) = false from by decide])
    · intro hp
      refine ⟨?_, ?_, ?_⟩ <;>
        rw [lookup_extract_to_proj _ _ (by decide)
            (lookup_certEntryPair_ne _ 0 _ (by decide) (by decide))
            (lookup_certEntryPair_ne _ 1 _ (by decide) (by decide))
            (lookup_languagesPart_ne _ _ (by decide))
            (lookup_skillsPart_ne _ _ (by decide))] <;>
        rw [lookup_append_none _ (lookup_projEntryTriple_ne _ 0 _ (by decide) (by decide) (by decide))] <;>
        rw [lookup_append_none _ (by simp [projEntryTriple, hp, List.lookup])] <;>
        rw [lookup_append_none _ (lookup_projEntryTriple_ne _ 2 _ (by decide) (by decide) (by decide))] <;>
        exact lookup_projEntryTriple_ne _ 3 _ (by decide) (by decide) (by decide)
  · constructor
    · intro p hp
      refine ⟨?_, ?_, ?_⟩ <;>
        rw [lookup_extract_to_proj _ _ (by decide)
            (lookup_certEntryPair_ne _ 0 _ (by decide) (by decide))
            (lookup_certEntryPair_ne _ 1 _ (by decide) (by decide))
            (lookup_languagesPart_ne _ _ (by decide))
            (lookup_skillsPart_ne _ _ (by decide))] <;>
        rw [lookup_append_none _ (lookup_projEntryTriple_ne _ 0 _ (by decide) (by decide) (by decide))] <;>
        rw [lookup_append_none _ (lookup_projEntryTriple_ne _ 1 _ (by decide) (by decide) (by decide))] <;>
        exact lookup_append_some _ (by
          simp [projEntryTriple, hp, List.lookup,
            show (tok ("projectIndustry" ++ toString 2) == tok ("projectRole" ++ toString 2)) = false from by decide,
            show (tok ("projectName" ++ toString 2) == tok ("projectRole" ++ toString 2)) = false from by decide,
            show (tok ("projectName" ++ toString 2) == tok ("projectIndustry" ++ toString 2)) = false from by decide])
    · intro hp
      refine ⟨?_, ?_, ?_⟩ <;>
        rw [lookup_extract_to_proj _ _ (by decide)
            (lookup_certEntryPair_ne _ 0 _ (by decide) (by decide))
            (lookup_certEntryPair_ne _ 1 _ (by decide) (by decide))
            (lookup_languagesPart_ne _ _ (by decide))
            (lookup_skillsPart_ne _ _ (by decide))] <;>
        rw [lookup_append_none _ (lookup_projEntryTriple_ne _ 0 _ (by decide) (by decide) (by decide))] <;>
        rw [lookup_append_none _ (lookup_projEntryTriple_ne _ 1 _ (by decide) (by decide) (by decide))] <;>
        rw [lookup_append_none _ (by simp [projEntryTriple, hp, List.lookup])] <;>
        exact lookup_projEntryTriple_ne _ 3 _ (by decide) (by decide) (by decide)
  · constructor
    · intro p hp
      refine ⟨?_, ?_, ?_⟩ <;>
        rw [lookup_extract_to_proj _ _ (by decide)
            (lookup_certEntryPair_ne _ 0 _ (by decide) (by decide))
            (lookup_certEntryPair_ne _ 1 _ (by decide) (by decide))
            (lookup_languagesPart_ne _ _ (by decide))
            (lookup_skillsPart_ne _ _ (by decide))] <;>
        rw [lookup_append_none _ (lookup_projEntryTriple_ne _ 0 _ (by decide) (by decide) (by decide))] <;>
        rw [lookup_append_none _ (lookup_projEntryTriple_ne _ 1 _ (by decide) (by decide) (by decide))] <;>
        rw [lookup_append_none _ (lookup_projEntryTriple_ne _ 2 _ (by decide) (by decide) (by decide))] <;>
        simp [projEntryTriple, hp, List.lookup,
          show (tok ("projectIndustry" ++ toString 3) == tok ("projectRole" ++ toString 3)) = false from by decide,
          show (tok ("projectName" ++ toString 3) == tok ("projectRole" ++ toString 3)) = false from by decide,
          show (tok ("projectName" ++ toString 3) == tok ("projectIndustry" ++ toString 3)) = false from by decide]
    · intro hp
      refine ⟨?_, ?_, ?_⟩ <;>
        rw [lookup_extract_to_proj _ _ (by decide)
            (lookup_certEntryPair_ne _ 0 _ (by decide) (by decide))
            (lookup_certEntryPair_ne _ 1 _ (by decide) (by decide))
            (lookup_languagesPart_ne _ _ (by decide))
            (lookup_skillsPart_ne _ _ (by decide))] <;>
        rw [lookup_append_none _ (lookup_projEntryTriple_ne _ 0 _ (by decide) (by decide) (by decide))] <;>
        rw [lookup_append_none _ (lookup_projEntryTriple_ne _ 1 _ (by decide) (by decide) (by decide))] <;>
        rw [lookup_append_none _ (lookup_projEntryTriple_ne _ 2 _ (by decide) (by decide) (by decide))] <;>
        simp [projEntryTriple, hp, List.lookup]

/-- A profile with exactly one project, for exercising both branches of the
project-keys theorem. -/
def c7Profile : EmployeeDetails :=
  { fullName := none, certifications := [],
    projects := [⟨some "DEV", ⟨some "AUTO", some "ProjX", 0⟩⟩],
    languages := none, skills := none }

/-- Witness for C7: with a single project, index 0 yields the role value
and index 1 yields no key. -/
theorem c7_project_keys_witness :
    (0 : Nat) < 4 ∧ (1 : Nat) < 4 ∧
      List.lookup (tok ("projectRole" ++ toString 0)) (extractPlaceholders c7Profile)
        = some "DEV" ∧
      List.lookup (tok ("projectRole" ++ toString 1)) (extractPlaceholders c7Profile) = none :=
  ⟨by decide, by decide,
   ((c7_project_keys c7Profile 0 (by decide)).1
     ⟨some "DEV", ⟨some "AUTO", some "ProjX", 0⟩⟩ rfl).1,
   ((c7_project_keys c7Profile 1 (by decide)).2 rfl).1⟩

/- ## C1: batch packaging -/

/-- The filename interpolation is injective in the identifier. -/
theorem opFilename_injective {a b : String} (h : opFilename a = opFilename b) : a = b := by
  have hl : "OP_".toList ++ (a.toList ++ ".pptx".toList)
      = "OP_".toList ++ (b.toList ++ ".pptx".toList) := by
    have := congrArg String.toList h
    simpa [opFilename, String.toList, List.append_assoc] using this
  have h2 := List.append_cancel_left hl
  have h3 := List.append_cancel_right h2
  simp [String.toList] at h3
  exact congrArg String.mk h3

/-- Adding an entry under a name absent from the archive appends it. -/
theorem zipSetFile_fresh {α : Type} (name : String) (content : α) (acc : List (String × α))
    (h : ∀ p ∈ acc, p.1 ≠ name) : zipSetFile name content acc = acc ++ [(name, content)] := by
  unfold zipSetFile
  rw [if_neg]
  intro hany
  rw [List.any_eq_true] at hany
  obtain ⟨p, hp, heq⟩ := hany
  exact h p hp (of_decide_eq_true heq)

/-- With pairwise distinct upcoming filenames, the archive loop appends one
entry per buffer, pairing the buffers with the filenames in order. -/
theorem buildArchive_zip {α : Type} (ids : List String) :
    ∀ (bufs : List α) (idx : Nat) (acc : List (String × α)),
      idx + bufs.length ≤ ids.length →
      ((ids.map opFilename).drop idx).Nodup →
      (∀ p ∈ acc, p.1 ∉ (ids.map opFilename).drop idx) →
      buildArchive ids idx acc bufs
        = acc ++ List.zip (((ids.map opFilename).drop idx).take bufs.length) bufs := by
  intro bufs
  induction bufs with
  | nil => intro idx acc _ _ _; simp [buildArchive]
  | cons b bs ih =>
    intro idx acc hlen hnodup hacc
    have hidx : idx < ids.length := by
      simp only [List.length_cons] at hlen; omega
    have hidx' : idx < (ids.map opFilename).length := by simpa using hidx
    have hdrop : (ids.map opFilename).drop idx
        = (ids.map opFilename)[idx] :: (ids.map opFilename).drop (idx + 1) :=
      List.drop_eq_getElem_cons hidx'
    have hnameMap : (ids.map opFilename)[idx] = opFilename ids[idx] := by simp
    have hname : ids[idx]?.getD "undefined" = ids[idx] := by
      rw [List.getElem?_eq_getElem hidx]; rfl
    have hfresh : ∀ p ∈ acc, p.1 ≠ opFilename ids[idx] := by
      intro p hp heq
      have hmem := hacc p hp
      rw [hdrop, hnameMap] at hmem
      exact hmem (heq ▸ List.mem_cons_self _ _)
    have hnodup' : ((ids.map opFilename).drop (idx + 1)).Nodup := by
      rw [hdrop] at hnodup
      exact (List.nodup_cons.mp hnodup).2
    have hheadnotin : opFilename ids[idx] ∉ (ids.map opFilename).drop (idx + 1) := by
      rw [hdrop, hnameMap] at hnodup
      exact (List.nodup_cons.mp hnodup).1
    have hacc' : ∀ p ∈ acc ++ [(opFilename ids[idx], b)],
        p.1 ∉ (ids.map opFilename).drop (idx + 1) := by
      intro p hp
      rcases List.mem_append.mp hp with hpa | hpb
      · intro hmem
        have hsub : (ids.map opFilename).drop (idx + 1)
            = List.drop 1 ((ids.map opFilename).drop idx) := by
          rw [List.drop_drop]
        exact hacc p hpa (List.mem_of_mem_drop (hsub ▸ hmem))
      · have : p = (opFilename ids[idx], b) := by simpa using hpb
        rw [this]
        exact hheadnotin
    rw [buildArchive, hname, zipSetFile_fresh _ _ _ hfresh,
        ih (idx + 1) _ (by simp only [List.length_cons] at hlen; omega) hnodup' hacc']
    rw [hdrop, hnameMap]
    simp [List.append_assoc]

/-- Amended C1: with a batch of one document, the buffer passes through
unchanged under filename `OP_<id>.pptx`; with more than one document and
*pairwise distinct* identifiers, the archive holds exactly one entry per
document, named `OP_<id>.pptx` for its identifier, under the fixed bundle
name `OnePagers.zip`, in request order.  (With duplicated identifiers the
later document overwrites the earlier entry of the same name, so the
one-entry-per-document part of the frozen claim fails; distinctness is the
minimal repair.) -/
theorem c1_pack {α : Type} (buffers : List α) (ids : List String)
    (hlen : buffers.length = ids.length) (hnodup : ids.Nodup) :
    (∀ b id, buffers = [b] → ids = [id] →
        sendOnePagerResponse buffers ids
          = .single pptContentType (opFilename id) (some b)) ∧
    (buffers.length > 1 →
        sendOnePagerResponse buffers ids
          = .archive "application/zip" "OnePagers.zip"
              (List.zip (ids.map opFilename) buffers)) := by
  constructor
  · rintro b id rfl rfl
    simp [sendOnePagerResponse]
  · intro hgt
    have hnodupNames : (ids.map opFilename).Nodup :=
      hnodup.map (fun a b h => opFilename_injective h)
    rw [sendOnePagerResponse, if_pos hgt]
    have hbuild := buildArchive_zip ids buffers 0 []
      (by omega) (by simpa using hnodupNames) (by simp)
    rw [hbuild]
    have htake : ((ids.map opFilename).drop 0).take buffers.length = ids.map opFilename := by
      rw [List.drop_zero, hlen, show ids.length = (ids.map opFilename).length from by simp,
          List.take_length]
    rw [htake]
    simp

/-- Counterexample to C1 as frozen: with duplicated identifiers the archive
of a two-document batch holds a single entry (the second document
overwrote the first under the shared name), not one entry per document. -/
theorem c1_counterexample_duplicate_ids :
    sendOnePagerResponse (α := String) ["docA", "docB"] ["E1", "E1"]
        = .archive "application/zip" "OnePagers.zip" [("OP_E1.pptx", "docB")]
      ∧ sendOnePagerResponse (α := String) ["docA", "docB"] ["E1", "E1"]
        ≠ .archive "application/zip" "OnePagers.zip"
            (List.zip (["E1", "E1"].map opFilename) ["docA", "docB"]) := by
  constructor <;> decide

/-- Witness for C1 (amended) at singleton and two-document batches. -/
theorem c1_pack_witness :
    sendOnePagerResponse (α := String) ["b"] ["E1"]
        = .single pptContentType (opFilename "E1") (some "b")
      ∧ sendOnePagerResponse (α := String) ["b1", "b2"] ["E1", "E2"]
        = .archive "application/zip" "OnePagers.zip"
            (List.zip (["E1", "E2"].map opFilename) ["b1", "b2"]) :=
  ⟨(c1_pack ["b"] ["E1"] (by decide) (by decide)).1 "b" "E1" rfl rfl,
   (c1_pack ["b1", "b2"] ["E1", "E2"] (by decide) (by decide)).2 (by decide)⟩

/- ## C4: regex substitution versus literal substring replacement -/

/-- Dollar-escape expansion is the identity on replacement strings that
contain no dollar character. -/
theorem jsDollarExpand_of_no_dollar (m b a : List Char) :
    ∀ (n : Nat) (val : List Char), val.length ≤ n → dollarChar ∉ val →
      jsDollarExpand m b a val = val := by
  intro n
  induction n with
  | zero =>
    intro val hlen _
    have hnil : val = [] := List.eq_nil_of_length_eq_zero (Nat.le_zero.mp hlen)
    subst hnil; rfl
  | succ n ih =>
    intro val hlen hd
    match val with
    | [] => rfl
    | [c] => rfl
    | c1 :: c2 :: rest =>
      have hc1 : ¬ c1 = dollarChar := fun h => hd (by rw [← h]; exact List.mem_cons_self _ _)
      simp only [jsDollarExpand]
      rw [if_neg hc1]
      congr 1
      exact ih (c2 :: rest)
        (by simp only [List.length_cons] at hlen ⊢; omega)
        (fun hmem => hd (List.mem_cons_of_mem _ hmem))

/-- The no-dollar case of `jsDollarExpand`, with the bound discharged. -/
theorem jsDollarExpand_no_dollar (m b a val : List Char) (h : dollarChar ∉ val) :
    jsDollarExpand m b a val = val :=
  jsDollarExpand_of_no_dollar m b a val.length val le_rfl h

/-- With a dollar-free replacement value, the regex replacement loop and
the literal replacement loop agree step for step. -/
theorem jsReplaceLoop_eq_literal (orig pat val : List Char) (hval : dollarChar ∉ val) :
    ∀ (fuel pos : Nat) (s : List Char),
      jsReplaceLoop orig pat val fuel pos s = literalReplaceLoop pat val fuel s := by
  intro fuel
  induction fuel with
  | zero => intro pos s; cases s <;> rfl
  | succ fuel ih =>
    intro pos s
    cases s with
    | nil => rfl
    | cons c rest =>
      simp only [jsReplaceLoop, literalReplaceLoop]
      by_cases hp : pat.isPrefixOf (c :: rest) = true
      · rw [if_pos hp, if_pos hp, jsDollarExpand_no_dollar _ _ _ _ hval, ih]
      · rw [if_neg hp, if_neg hp, ih]

/-- With a dollar-free value, one regex replacement pass equals one
literal replacement pass. -/
theorem jsReplaceAll_eq_literal (pat val s : String) (hval : dollarChar ∉ val.toList) :
    jsReplaceAll pat val s = literalReplaceAll pat val s := by
  unfold jsReplaceAll literalReplaceAll
  by_cases hp : pat.toList.isEmpty = true
  · rw [if_pos hp, if_pos hp]
  · rw [if_neg hp, if_neg hp, jsReplaceLoop_eq_literal _ _ _ hval]

/-- C4 (amended): for every slide text and every placeholder map drawn
from the fixed token vocabulary whose values contain no dollar character,
the implemented regex-based substitution equals literal substring
replacement of each token by its value.  (The vocabulary keeps every token
a literal-match pattern; the dollar restriction on values is forced by the
replacement-string escapes of `String.replace` — a value containing, for
example, dollar-ampersand is expanded to the matched token rather than
inserted verbatim.) -/
theorem c4_substitution_literal (placeholders : List (String × String)) (text : String)
    (hkeys : ∀ p ∈ placeholders, p.1 ∈ fixedTokens)
    (hvals : ∀ p ∈ placeholders, dollarChar ∉ p.2.toList) :
    applyPlaceholders placeholders text = applyPlaceholdersLiteral placeholders text := by
  induction placeholders generalizing text with
  | nil => rfl
  | cons p rest ih =>
    simp only [applyPlaceholders, applyPlaceholdersLiteral, List.foldl_cons]
    rw [jsReplaceAll_eq_literal _ _ _ (hvals p (List.mem_cons_self _ _))]
    exact ih (literalReplaceAll p.1 p.2 text)
      (fun q hq => hkeys q (List.mem_cons_of_mem _ hq))
      (fun q hq => hvals q (List.mem_cons_of_mem _ hq))

/-- Counterexample to C4 as frozen: a vocabulary token whose value is the
dollar-ampersand escape is not replaced literally — the escape re-inserts
the matched token — so the regex substitution and the literal substitution
disagree. -/
theorem c4_counterexample_dollar_value :
    tok "fullName" ∈ fixedTokens
      ∧ applyPlaceholders [(tok "fullName", "$&")] "a\x7b\x7bfullName\x7d\x7db"
          = "a\x7b\x7bfullName\x7d\x7db"
      ∧ applyPlaceholdersLiteral [(tok "fullName", "$&")] "a\x7b\x7bfullName\x7d\x7db"
          = "a$&b"
      ∧ applyPlaceholders [(tok "fullName", "$&")] "a\x7b\x7bfullName\x7d\x7db"
          ≠ applyPlaceholdersLiteral [(tok "fullName", "$&")] "a\x7b\x7bfullName\x7d\x7db" := by
  refine ⟨by decide, by decide, by decide, by decide⟩

/-- Witness for C4 (amended) at a concrete map and slide text. -/
theorem c4_substitution_literal_witness :
    (∀ p ∈ [(tok "fullName", "Jane Doe")], p.1 ∈ fixedTokens)
      ∧ (∀ p ∈ [(tok "fullName", "Jane Doe")], dollarChar ∉ p.2.toList)
      ∧ applyPlaceholders [(tok "fullName", "Jane Doe")] "a\x7b\x7bfullName\x7d\x7db"
          = applyPlaceholdersLiteral [(tok "fullName", "Jane Doe")] "a\x7b\x7bfullName\x7d\x7db" :=
  ⟨by decide, by decide,
   c4_substitution_literal [(tok "fullName", "Jane Doe")] "a\x7b\x7bfullName\x7d\x7db"
     (by decide) (by decide)⟩

/- ## Cipher lemmas: xor, padding, chunking -/

/-- Xoring twice with the same equal-length mask is the identity. -/
theorem xorBytes_cancel : ∀ (a b : List Nat), a.length = b.length →
    xorBytes a (xorBytes a b) = b := by
  intro a
  induction a with
  | nil =>
    intro b h
    cases b with
    | nil => rfl
    | cons y ys => simp at h
  | cons x xs ih =>
    intro b h
    cases b with
    | nil => simp at h
    | cons y ys =>
      simp only [xorBytes, List.zipWith_cons_cons]
      rw [show Nat.xor x (Nat.xor x y) = y from Nat.xor_cancel_left x y]
      have hlen : xs.length = ys.length := by
        simp only [List.length_cons] at h; omega
      rw [show List.zipWith (fun u v => Nat.xor u v) xs
            (List.zipWith (fun u v => Nat.xor u v) xs ys) = ys from ih ys hlen]

/-- The length of a bytewise xor. -/
theorem xorBytes_length (a b : List Nat) :
    (xorBytes a b).length = min a.length b.length := by
  simp [xorBytes]

/-- Bytewise xor preserves the byte range. -/
theorem xorBytes_lt : ∀ (a b : List Nat), (∀ x ∈ a, x < 256) → (∀ x ∈ b, x < 256) →
    ∀ x ∈ xorBytes a b, x < 256 := by
  intro a
  induction a with
  | nil => intro b _ _ x hx; simp [xorBytes] at hx
  | cons c cs ih =>
    intro b ha hb x hx
    cases b with
    | nil => simp [xorBytes] at hx
    | cons d ds =>
      simp only [xorBytes, List.zipWith_cons_cons, List.mem_cons] at hx
      rcases hx with rfl | hx
      · have h1 : c < 2 ^ 8 := by simpa using ha c (List.mem_cons_self _ _)
        have h2 : d < 2 ^ 8 := by simpa using hb d (List.mem_cons_self _ _)
        simpa using Nat.xor_lt_two_pow h1 h2
      · exact ih ds (fun y hy => ha y (List.mem_cons_of_mem _ hy))
          (fun y hy => hb y (List.mem_cons_of_mem _ hy)) x hx

/-- The padded length is a positive multiple of the block size. -/
theorem padPKCS7_length (data : List Nat) :
    (padPKCS7 data).length = data.length + (16 - data.length % 16) := by
  simp [padPKCS7]

/-- Padding yields a multiple of 16. -/
theorem padPKCS7_mod (data : List Nat) : (padPKCS7 data).length % 16 = 0 := by
  rw [padPKCS7_length]
  omega

/-- Padding never yields the empty list. -/
theorem padPKCS7_ne_nil (data : List Nat) : padPKCS7 data ≠ [] := by
  intro h
  have := congrArg List.length h
  rw [padPKCS7_length] at this
  simp at this
  omega

/-- Padding preserves the byte range (pad bytes are at most 16). -/
theorem padPKCS7_lt (data : List Nat) (h : ∀ x ∈ data, x < 256) :
    ∀ x ∈ padPKCS7 data, x < 256 := by
  intro x hx
  simp only [padPKCS7, List.mem_append] at hx
  rcases hx with hx | hx
  · exact h x hx
  · have := List.eq_of_mem_replicate hx
    omega

/-- Unpadding inverts padding. -/
theorem unpadPKCS7_padPKCS7 (data : List Nat) :
    unpadPKCS7 (padPKCS7 data) = some data := by
  set n := 16 - data.length % 16 with hn
  have hn1 : 1 ≤ n := by have := Nat.mod_lt data.length (show 0 < 16 by norm_num); omega
  have hn16 : n ≤ 16 := by omega
  have hrep : List.replicate n n = List.replicate (n - 1) n ++ [n] := by
    obtain ⟨m, hm⟩ : ∃ m, n = m + 1 := ⟨n - 1, by omega⟩
    rw [hm]
    simpa using List.replicate_succ' m (m + 1)
  have hpad : padPKCS7 data = (data ++ List.replicate (n - 1) n) ++ [n] := by
    rw [padPKCS7, ← hn, hrep, List.append_assoc]
  have hlast : (padPKCS7 data).getLast? = some n := by
    rw [hpad]
    exact List.getLast?_concat _
  have hlen : (padPKCS7 data).length = data.length + n := by
    rw [padPKCS7_length, ← hn]
  have hdrop : (padPKCS7 data).drop ((padPKCS7 data).length - n) = List.replicate n n := by
    rw [hlen, padPKCS7, ← hn, show data.length + n - n = data.length from by omega]
    exact List.drop_left data (List.replicate n n)
  have htake : (padPKCS7 data).take ((padPKCS7 data).length - n) = data := by
    rw [hlen, padPKCS7, ← hn, show data.length + n - n = data.length from by omega]
    exact List.take_left data (List.replicate n n)
  simp only [unpadPKCS7, hlast]
  rw [if_pos ⟨hn1, hn16, by omega, hdrop⟩, htake]

/-- Chunking a list whose length is a multiple of 16 yields blocks of
length 16, drawn from the list, that flatten back to it. -/
theorem chunksAux_spec : ∀ (fuel : Nat) (l : List Nat), l.length ≤ fuel → l.length % 16 = 0 →
    (∀ bl ∈ chunksAux fuel l, bl.length = 16) ∧
    (chunksAux fuel l).flatten = l ∧
    (∀ bl ∈ chunksAux fuel l, ∀ x ∈ bl, x ∈ l) := by
  intro fuel
  induction fuel with
  | zero =>
    intro l hlen _
    have hnil : l = [] := List.eq_nil_of_length_eq_zero (Nat.le_zero.mp hlen)
    subst hnil
    exact ⟨by simp [chunksAux], by simp [chunksAux], by simp [chunksAux]⟩
  | succ fuel ih =>
    intro l hlen hmod
    cases l with
    | nil => exact ⟨by simp [chunksAux], by simp [chunksAux], by simp [chunksAux]⟩
    | cons c cs =>
      have hstep : chunksAux (fuel + 1) (c :: cs)
          = (c :: cs).take 16 :: chunksAux fuel ((c :: cs).drop 16) := rfl
      have hpos : (c :: cs).length ≠ 0 := by simp
      have h16 : 16 ≤ (c :: cs).length := by omega
      have htlen : ((c :: cs).take 16).length = 16 := by
        rw [List.length_take]; omega
      obtain ⟨ha, hb, hc⟩ := ih ((c :: cs).drop 16)
        (by rw [List.length_drop]; omega)
        (by rw [List.length_drop]; omega)
      refine ⟨?_, ?_, ?_⟩
      · intro bl hbl
        rw [hstep] at hbl
        rcases List.mem_cons.mp hbl with rfl | hbl
        · exact htlen
        · exact ha bl hbl
      · rw [hstep, List.flatten_cons, hb, List.take_append_drop]
      · intro bl hbl x hx
        rw [hstep] at hbl
        rcases List.mem_cons.mp hbl with rfl | hbl
        · exact List.mem_of_mem_take hx
        · exact List.mem_of_mem_drop (hc bl hbl x hx)

/-- Chunking the flattening of 16-byte blocks recovers the blocks. -/
theorem chunksAux_flatten_blocks : ∀ (blocks : List (List Nat)) (fuel : Nat),
    (∀ bl ∈ blocks, bl.length = 16) → blocks.flatten.length ≤ fuel →
    chunksAux fuel blocks.flatten = blocks := by
  intro blocks
  induction blocks with
  | nil => intro fuel _ _; cases fuel <;> rfl
  | cons bl bls ih =>
    intro fuel hall hlen
    have hbl : bl.length = 16 := hall bl (List.mem_cons_self _ _)
    rw [List.flatten_cons] at hlen ⊢
    have hlen16 : (bl ++ bls.flatten).length = 16 + bls.flatten.length := by
      rw [List.length_append, hbl]
    cases fuel with
    | zero => omega
    | succ f =>
      cases bl with
      | nil => simp at hbl
      | cons x xs =>
        rw [show chunksAux (f + 1) ((x :: xs) ++ bls.flatten)
            = ((x :: xs) ++ bls.flatten).take 16
                :: chunksAux f (((x :: xs) ++ bls.flatten).drop 16) from rfl]
        rw [← hbl, List.take_left, List.drop_left]
        congr 1
        exact ih f (fun b hb => hall b (List.mem_cons_of_mem _ hb)) (by omega)

/-- The 16-block decomposition of the flattening of 16-byte blocks. -/
theorem chunks16_flatten (blocks : List (List Nat)) (h : ∀ bl ∈ blocks, bl.length = 16) :
    chunks16 blocks.flatten = blocks :=
  chunksAux_flatten_blocks blocks blocks.flatten.length h le_rfl

/-- The flattening of 16-byte blocks has length a multiple of 16. -/
theorem flatten_length_16 : ∀ (blocks : List (List Nat)),
    (∀ bl ∈ blocks, bl.length = 16) → blocks.flatten.length = 16 * blocks.length := by
  intro blocks
  induction blocks with
  | nil => intro _; simp
  | cons bl bls ih =>
    intro hall
    rw [List.flatten_cons, List.length_append, hall bl (List.mem_cons_self _ _),
        ih (fun b hb => hall b (List.mem_cons_of_mem _ hb))]
    simp [List.length_cons]
    ring

/- ## CBC mode lemmas -/

/-- CBC encryption of valid blocks under a valid chaining value yields
valid blocks. -/
theorem cbcEncBlocks_spec (C : BlockCipher) (key : List Nat) :
    ∀ (blocks : List (List Nat)) (prev : List Nat),
      prev.length = 16 → (∀ x ∈ prev, x < 256) →
      (∀ bl ∈ blocks, bl.length = 16 ∧ ∀ x ∈ bl, x < 256) →
      ∀ cb ∈ cbcEncBlocks C key prev blocks, cb.length = 16 ∧ ∀ x ∈ cb, x < 256 := by
  intro blocks
  induction blocks with
  | nil => intro prev _ _ _ cb hcb; simp [cbcEncBlocks] at hcb
  | cons bl bls ih =>
    intro prev hp hpb hall cb hcb
    have hbl := hall bl (List.mem_cons_self _ _)
    have hxorlen : (xorBytes prev bl).length = 16 := by
      rw [xorBytes_length, hp, hbl.1]; simp
    have hxorlt : ∀ x ∈ xorBytes prev bl, x < 256 := xorBytes_lt prev bl hpb hbl.2
    have henclen : (C.enc key (xorBytes prev bl)).length = 16 := C.enc_length key _ hxorlen
    have henclt : ∀ x ∈ C.enc key (xorBytes prev bl), x < 256 :=
      C.enc_bytes key _ hxorlen hxorlt
    rw [show cbcEncBlocks C key prev (bl :: bls)
        = C.enc key (xorBytes prev bl)
            :: cbcEncBlocks C key (C.enc key (xorBytes prev bl)) bls from rfl] at hcb
    rcases List.mem_cons.mp hcb with rfl | hcb
    · exact ⟨henclen, henclt⟩
    · exact ih (C.enc key (xorBytes prev bl)) henclen henclt
        (fun b hb => hall b (List.mem_cons_of_mem _ hb)) cb hcb

/-- CBC decryption inverts CBC encryption on valid blocks. -/
theorem cbcDec_cbcEnc (C : BlockCipher) (key : List Nat) :
    ∀ (blocks : List (List Nat)) (prev : List Nat),
      prev.length = 16 → (∀ x ∈ prev, x < 256) →
      (∀ bl ∈ blocks, bl.length = 16 ∧ ∀ x ∈ bl, x < 256) →
      cbcDecBlocks C key prev (cbcEncBlocks C key prev blocks) = blocks := by
  intro blocks
  induction blocks with
  | nil => intro prev _ _ _; rfl
  | cons bl bls ih =>
    intro prev hp hpb hall
    have hbl := hall bl (List.mem_cons_self _ _)
    have hxorlen : (xorBytes prev bl).length = 16 := by
      rw [xorBytes_length, hp, hbl.1]; simp
    have hxorlt : ∀ x ∈ xorBytes prev bl, x < 256 := xorBytes_lt prev bl hpb hbl.2
    have henclen : (C.enc key (xorBytes prev bl)).length = 16 := C.enc_length key _ hxorlen
    have henclt : ∀ x ∈ C.enc key (xorBytes prev bl), x < 256 :=
      C.enc_bytes key _ hxorlen hxorlt
    rw [show cbcEncBlocks C key prev (bl :: bls)
        = C.enc key (xorBytes prev bl)
            :: cbcEncBlocks C key (C.enc key (xorBytes prev bl)) bls from rfl]
    rw [show cbcDecBlocks C key prev (C.enc key (xorBytes prev bl)
          :: cbcEncBlocks C key (C.enc key (xorBytes prev bl)) bls)
        = xorBytes prev (C.dec key (C.enc key (xorBytes prev bl)))
            :: cbcDecBlocks C key (C.enc key (xorBytes prev bl))
                (cbcEncBlocks C key (C.enc key (xorBytes prev bl)) bls) from rfl]
    rw [C.dec_enc key _ hxorlen hxorlt,
        xorBytes_cancel prev bl (by rw [hp, hbl.1]),
        ih (C.enc key (xorBytes prev bl)) henclen henclt
          (fun b hb => hall b (List.mem_cons_of_mem _ hb))]

/- ## Hex encoding lemmas -/

/-- `hexVal` inverts `hexDigit` on nibbles. -/
theorem hexVal_hexDigit (n : Nat) (h : n < 16) : hexVal (hexDigit n) = some n := by
  interval_cases n <;> decide

/-- Hex digits are never the colon separator. -/
theorem hexDigit_ne_colon (n : Nat) (h : n < 16) : hexDigit n ≠ colonChar := by
  interval_cases n <;> decide

/-- Lenient hex decoding inverts hex encoding of valid bytes. -/
theorem hexDecodeLenient_hexEncode : ∀ (b : List Nat), (∀ x ∈ b, x < 256) →
    hexDecodeLenient (hexEncodeBytes b) = b := by
  intro b
  induction b with
  | nil => intro _; rfl
  | cons x xs ih =>
    intro h
    have hx := h x (List.mem_cons_self _ _)
    have hdiv : x / 16 < 16 := by omega
    have hmod : x % 16 < 16 := by omega
    have hcons : hexEncodeBytes (x :: xs)
        = hexDigit (x / 16) :: hexDigit (x % 16) :: hexEncodeBytes xs := by
      simp [hexEncodeBytes]
    rw [hcons]
    rw [show hexDecodeLenient (hexDigit (x / 16) :: hexDigit (x % 16) :: hexEncodeBytes xs)
        = (match hexVal (hexDigit (x / 16)), hexVal (hexDigit (x % 16)) with
           | some hi, some lo => (16 * hi + lo) :: hexDecodeLenient (hexEncodeBytes xs)
           | _, _ => []) from rfl]
    rw [hexVal_hexDigit _ hdiv, hexVal_hexDigit _ hmod]
    show (16 * (x / 16) + x % 16) :: hexDecodeLenient (hexEncodeBytes xs) = x :: xs
    rw [ih (fun y hy => h y (List.mem_cons_of_mem _ hy))]
    congr 1
    omega

/-- The hex encoding of valid bytes never contains the colon separator. -/
theorem colon_not_mem_hexEncode (b : List Nat) (h : ∀ x ∈ b, x < 256) :
    colonChar ∉ hexEncodeBytes b := by
  intro hmem
  simp only [hexEncodeBytes, List.mem_flatten, List.mem_map] at hmem
  obtain ⟨l, ⟨x, hx, rfl⟩, hcl⟩ := hmem
  have hx256 := h x hx
  have h1 : hexDigit (x / 16) ≠ colonChar := hexDigit_ne_colon _ (by omega)
  have h2 : hexDigit (x % 16) ≠ colonChar := hexDigit_ne_colon _ (by omega)
  simp only [List.mem_cons, List.not_mem_nil, or_false] at hcl
  rcases hcl with hcl | hcl
  · exact h1 hcl.symm
  · exact h2 hcl.symm

/- ## Split lemmas -/

/-- Splitting never yields an empty fragment list. -/
theorem splitChar_ne_nil (ch : Char) : ∀ l : List Char, splitChar ch l ≠ [] := by
  intro l
  cases l with
  | nil => simp [splitChar]
  | cons c rest =>
    simp only [splitChar]
    rcases hsp : splitChar ch rest with _ | ⟨h, t⟩
    · simp
    · by_cases hc : c = ch <;> simp [hc]

/-- Splitting a separator-free list yields the single fragment. -/
theorem splitChar_no_sep (ch : Char) : ∀ l : List Char, ch ∉ l → splitChar ch l = [l] := by
  intro l
  induction l with
  | nil => intro _; rfl
  | cons c rest ih =>
    intro h
    have hc : ¬ c = ch := fun he => h (by rw [← he]; exact List.mem_cons_self _ _)
    have hr := ih (fun hm => h (List.mem_cons_of_mem _ hm))
    simp only [splitChar, hr]
    rw [if_neg hc]

/-- Splitting at the first separator detaches the separator-free prefix. -/
theorem splitChar_sep_append (ch : Char) : ∀ (a b : List Char), ch ∉ a →
    splitChar ch (a ++ ch :: b) = a :: splitChar ch b := by
  intro a
  induction a with
  | nil =>
    intro b _
    simp only [List.nil_append, splitChar]
    rcases hsp : splitChar ch b with _ | ⟨h, t⟩
    · exact absurd hsp (splitChar_ne_nil ch b)
    · simp
  | cons c a' ih =>
    intro b h
    have hc : ¬ c = ch := fun he => h (by rw [← he]; exact List.mem_cons_self _ _)
    have hr := ih b (fun hm => h (List.mem_cons_of_mem _ hm))
    simp only [List.cons_append, splitChar, List.append_eq, hr]
    rw [if_neg hc]

/-- A two-fragment split of a well-formed envelope. -/
theorem splitChar_two_parts (ch : Char) (a b : List Char) (ha : ch ∉ a) (hb : ch ∉ b) :
    splitChar ch (a ++ ch :: b) = [a, b] := by
  rw [splitChar_sep_append ch a b ha, splitChar_no_sep ch b hb]

/- ## C8: cipher round trip -/

/-- CBC encryption preserves the block count. -/
theorem cbcEncBlocks_length (C : BlockCipher) (key : List Nat) :
    ∀ (blocks : List (List Nat)) (prev : List Nat),
      (cbcEncBlocks C key prev blocks).length = blocks.length := by
  intro blocks
  induction blocks with
  | nil => intro prev; rfl
  | cons bl bls ih =>
    intro prev
    rw [show cbcEncBlocks C key prev (bl :: bls)
        = C.enc key (xorBytes prev bl)
            :: cbcEncBlocks C key (C.enc key (xorBytes prev bl)) bls from rfl]
    simp [ih]

/-- Splitting a produced envelope on the colon recovers the IV hex and the
ciphertext hex, because hex text never contains a colon. -/
theorem encryptData_split (C : BlockCipher) (H : String → List Nat) (data : List Nat)
    (seed : String) (iv : List Nat) (hiv : iv.length = 16) (hivb : ∀ x ∈ iv, x < 256)
    (hdb : ∀ x ∈ data, x < 256) :
    splitChar colonChar (encryptData C H data seed iv).toList
      = [hexEncodeBytes iv,
         hexEncodeBytes (cbcEncBlocks C (H seed) iv (chunks16 (padPKCS7 data))).flatten] := by
  obtain ⟨hblen, hbflat, hbmem⟩ :=
    chunksAux_spec (padPKCS7 data).length (padPKCS7 data) le_rfl (padPKCS7_mod data)
  have hBvalid : ∀ bl ∈ chunks16 (padPKCS7 data), bl.length = 16 ∧ ∀ x ∈ bl, x < 256 :=
    fun bl hbl => ⟨hblen bl hbl, fun x hx => padPKCS7_lt data hdb x (hbmem bl hbl x hx)⟩
  have hctvalid := cbcEncBlocks_spec C (H seed) (chunks16 (padPKCS7 data)) iv hiv hivb hBvalid
  have hctbytes : ∀ x ∈ (cbcEncBlocks C (H seed) iv (chunks16 (padPKCS7 data))).flatten,
      x < 256 := by
    intro x hx
    rw [List.mem_flatten] at hx
    obtain ⟨bl, hbl, hxbl⟩ := hx
    exact (hctvalid bl hbl).2 x hxbl
  have henv : (encryptData C H data seed iv).toList
      = hexEncodeBytes iv ++ colonChar
          :: hexEncodeBytes (cbcEncBlocks C (H seed) iv (chunks16 (padPKCS7 data))).flatten := by
    simp [encryptData, String.toList, colonChar]
  rw [henv]
  exact splitChar_two_parts colonChar _ _ (colon_not_mem_hexEncode iv hivb)
    (colon_not_mem_hexEncode _ hctbytes)

/-- Decryption inverts encryption: the envelope splits into IV hex and
ciphertext hex, hex decoding inverts encoding, the well-formedness checks
pass, CBC decryption inverts CBC encryption, and unpadding removes the
padding. -/
theorem decryptData_encryptData (C : BlockCipher) (H : String → List Nat) (data : List Nat)
    (seed : String) (iv : List Nat) (hkey : (H seed).length = 32) (hiv : iv.length = 16)
    (hivb : ∀ x ∈ iv, x < 256) (hdb : ∀ x ∈ data, x < 256) :
    decryptData C H (encryptData C H data seed iv) seed = some data := by
  obtain ⟨hblen, hbflat, hbmem⟩ :=
    chunksAux_spec (padPKCS7 data).length (padPKCS7 data) le_rfl (padPKCS7_mod data)
  have hBvalid : ∀ bl ∈ chunks16 (padPKCS7 data), bl.length = 16 ∧ ∀ x ∈ bl, x < 256 :=
    fun bl hbl => ⟨hblen bl hbl, fun x hx => padPKCS7_lt data hdb x (hbmem bl hbl x hx)⟩
  have hctvalid := cbcEncBlocks_spec C (H seed) (chunks16 (padPKCS7 data)) iv hiv hivb hBvalid
  have hctblen : ∀ cb ∈ cbcEncBlocks C (H seed) iv (chunks16 (padPKCS7 data)), cb.length = 16 :=
    fun cb h => (hctvalid cb h).1
  have hctbytes : ∀ x ∈ (cbcEncBlocks C (H seed) iv (chunks16 (padPKCS7 data))).flatten,
      x < 256 := by
    intro x hx
    rw [List.mem_flatten] at hx
    obtain ⟨bl, hbl, hxbl⟩ := hx
    exact (hctvalid bl hbl).2 x hxbl
  have hctlen : (cbcEncBlocks C (H seed) iv (chunks16 (padPKCS7 data))).flatten.length
      = 16 * (chunks16 (padPKCS7 data)).length := by
    rw [flatten_length_16 _ hctblen, cbcEncBlocks_length]
  have hBpos : 0 < (chunks16 (padPKCS7 data)).length := by
    rcases Nat.eq_zero_or_pos (chunks16 (padPKCS7 data)).length with hz | hp
    · exfalso
      have hBnil : chunks16 (padPKCS7 data) = [] := List.eq_nil_of_length_eq_zero hz
      have hpadnil : padPKCS7 data = [] := by
        rw [← hbflat]
        rw [show chunks16 (padPKCS7 data)
            = chunksAux (padPKCS7 data).length (padPKCS7 data) from rfl] at hBnil
        rw [hBnil]
        rfl
      exact padPKCS7_ne_nil data hpadnil
    · exact hp
  have hctne : (cbcEncBlocks C (H seed) iv (chunks16 (padPKCS7 data))).flatten ≠ [] := by
    intro h
    have hlen0 := congrArg List.length h
    rw [hctlen, List.length_nil] at hlen0
    omega
  have hctmod :
      (cbcEncBlocks C (H seed) iv (chunks16 (padPKCS7 data))).flatten.length % 16 = 0 := by
    rw [hctlen]; omega
  have hsplit := encryptData_split C H data seed iv hiv hivb hdb
  simp only [decryptData, hsplit]
  simp only [List.getElem?_cons_succ, List.getElem?_cons_zero, Option.getD_some]
  rw [hexDecodeLenient_hexEncode iv hivb, hexDecodeLenient_hexEncode _ hctbytes]
  rw [if_pos ⟨hkey, hiv⟩, if_pos ⟨hctmod, hctne⟩]
  rw [chunks16_flatten _ hctblen]
  rw [cbcDec_cbcEnc C (H seed) (chunks16 (padPKCS7 data)) iv hiv hivb hBvalid]
  rw [show (chunks16 (padPKCS7 data)).flatten = padPKCS7 data from hbflat]
  exact unpadPKCS7_padPKCS7 data

/-- C8: for every block-cipher instantiation honouring the AES contract,
every seed, plaintext and fresh 16-byte IV, decryption inverts encryption;
and two encryptions of the same (plaintext, seed) pair under distinct fresh
IVs produce different envelopes, both of which decrypt back to the
plaintext. -/
theorem c8_cipher_roundtrip (C : BlockCipher) (H : String → List Nat) (seed : String)
    (data iv₁ iv₂ : List Nat) (hkey : (H seed).length = 32)
    (hiv₁ : iv₁.length = 16) (hiv₁b : ∀ x ∈ iv₁, x < 256)
    (hiv₂ : iv₂.length = 16) (hiv₂b : ∀ x ∈ iv₂, x < 256)
    (hdb : ∀ x ∈ data, x < 256) :
    decryptData C H (encryptData C H data seed iv₁) seed = some data ∧
    (iv₁ ≠ iv₂ →
      encryptData C H data seed iv₁ ≠ encryptData C H data seed iv₂ ∧
      decryptData C H (encryptData C H data seed iv₂) seed = some data) := by
  refine ⟨decryptData_encryptData C H data seed iv₁ hkey hiv₁ hiv₁b hdb, fun hne =>
    ⟨?_, decryptData_encryptData C H data seed iv₂ hkey hiv₂ hiv₂b hdb⟩⟩
  intro heq
  have h2 := congrArg
    (fun s : String => hexDecodeLenient ((splitChar colonChar s.toList).headD [])) heq
  simp only [encryptData_split C H data seed iv₁ hiv₁ hiv₁b hdb,
             encryptData_split C H data seed iv₂ hiv₂ hiv₂b hdb,
             List.headD_cons] at h2
  rw [hexDecodeLenient_hexEncode iv₁ hiv₁b, hexDecodeLenient_hexEncode iv₂ hiv₂b] at h2
  exact hne h2

/-- The identity block permutation: a legitimate instantiation of the
block-cipher contract, for exercising the cipher theorems. -/
def idBlockCipher : BlockCipher where
  enc := fun _ b => b
  dec := fun _ b => b
  enc_length := fun _ _ h => h
  enc_bytes := fun _ _ _ hb => hb
  dec_enc := fun _ _ _ _ => rfl

/-- A constant 32-byte key derivation. -/
def zeroKeyH : String → List Nat := fun _ => List.replicate 32 0

/-- Witness for C8 at a concrete cipher, seed, plaintext and IV pair. -/
theorem c8_cipher_roundtrip_witness :
    (zeroKeyH "seed").length = 32
      ∧ (List.replicate 16 0 : List Nat) ≠ 1 :: List.replicate 15 0
      ∧ (decryptData idBlockCipher zeroKeyH
            (encryptData idBlockCipher zeroKeyH [1, 2, 3] "seed" (List.replicate 16 0)) "seed"
          = some [1, 2, 3] ∧
        ((List.replicate 16 0 : List Nat) ≠ 1 :: List.replicate 15 0 →
          encryptData idBlockCipher zeroKeyH [1, 2, 3] "seed" (List.replicate 16 0)
              ≠ encryptData idBlockCipher zeroKeyH [1, 2, 3] "seed" (1 :: List.replicate 15 0) ∧
          decryptData idBlockCipher zeroKeyH
              (encryptData idBlockCipher zeroKeyH [1, 2, 3] "seed" (1 :: List.replicate 15 0))
              "seed"
            = some [1, 2, 3])) :=
  ⟨by decide, by decide,
   c8_cipher_roundtrip idBlockCipher zeroKeyH "seed" [1, 2, 3]
     (List.replicate 16 0) (1 :: List.replicate 15 0)
     (by decide) (by decide) (by decide) (by decide) (by decide) (by decide)⟩

/- ## C9: decrypt failure behaviour -/

/-- Amended C9: decryption fails explicitly — modelling the raised
exception — on every structurally malformed envelope: a missing colon
separator, an IV half that does not decode to 16 bytes (or a key that is
not 32 bytes), and a ciphertext half that is not a nonzero multiple of the
block size.  (A wrong seed, by contrast, is only detected through the final
padding check: whenever the mis-decrypted bytes happen to end in valid
padding, decryption silently returns bytes that differ from the original
plaintext — see the counterexample.) -/
theorem c9_decrypt_explicit_failures (C : BlockCipher) (H : String → List Nat)
    (seed env : String) :
    (colonChar ∉ env.toList → decryptData C H env seed = none) ∧
    (∀ a b : List Char, env.toList = a ++ colonChar :: b → colonChar ∉ a →
      ((H seed).length ≠ 32 ∨ (hexDecodeLenient a).length ≠ 16) →
      decryptData C H env seed = none) ∧
    (∀ a b : List Char, env.toList = a ++ colonChar :: b → colonChar ∉ a → colonChar ∉ b →
      ((hexDecodeLenient b).length % 16 ≠ 0 ∨ hexDecodeLenient b = []) →
      decryptData C H env seed = none) := by
  refine ⟨?_, ?_, ?_⟩
  · intro h
    simp only [decryptData, splitChar_no_sep colonChar _ h]
    rfl
  · intro a b henv ha hbad
    rcases hsp : splitChar colonChar b with _ | ⟨h1, t1⟩
    · exact absurd hsp (splitChar_ne_nil colonChar b)
    · simp only [decryptData, henv, splitChar_sep_append colonChar a b ha, hsp]
      simp only [List.getElem?_cons_succ, List.getElem?_cons_zero, Option.getD_some]
      rw [if_neg]
      intro hcond
      rcases hbad with hk | hi
      · exact hk hcond.1
      · exact hi hcond.2
  · intro a b henv ha hb hbad
    simp only [decryptData, henv, splitChar_two_parts colonChar a b ha hb]
    simp only [List.getElem?_cons_succ, List.getElem?_cons_zero, Option.getD_some]
    by_cases hcond : (H seed).length = 32 ∧ (hexDecodeLenient a).length = 16
    · rw [if_pos hcond, if_neg]
      intro hct
      rcases hbad with h1 | h2
      · exact h1 hct.1
      · exact hct.2 h2
    · rw [if_neg hcond]

/-- Cancellation of the truncated xor used by the xor-mask cipher below. -/
theorem xor_mod_cancel (d x : Nat) (hd : d < 256) (hx : x < 256) :
    Nat.xor d (Nat.xor d x % 256) % 256 = x := by
  have h1 : Nat.xor d x < 256 := by
    have := Nat.xor_lt_two_pow (n := 8) (by simpa using hd) (by simpa using hx)
    simpa using this
  have h2 : Nat.xor d (Nat.xor d x) = x := Nat.xor_cancel_left d x
  rw [Nat.mod_eq_of_lt h1, h2, Nat.mod_eq_of_lt hx]

/-- A keyed xor mask on each byte of the block (its own inverse). -/
def xorHeadEnc (key block : List Nat) : List Nat :=
  block.map (fun x => Nat.xor (key.headD 0 % 256) x % 256)

/-- The xor mask applied twice is the identity on valid blocks. -/
theorem xorHeadEnc_invol (key block : List Nat) (hb : ∀ x ∈ block, x < 256) :
    xorHeadEnc key (xorHeadEnc key block) = block := by
  unfold xorHeadEnc
  rw [List.map_map]
  conv_rhs => rw [← List.map_id block]
  apply List.map_congr_left
  intro x hx
  exact xor_mod_cancel _ x (Nat.mod_lt _ (by norm_num)) (hb x hx)

/-- A block-cipher instantiation honouring the contract whose decryption
under a different key yields different, validly padded bytes — the
instantiation exhibiting the silent wrong-seed decryption. -/
def xorHeadCipher : BlockCipher where
  enc := xorHeadEnc
  dec := xorHeadEnc
  enc_length := by intro key block h; simpa [xorHeadEnc] using h
  enc_bytes := by
    intro key block _ _ x hx
    simp only [xorHeadEnc, List.mem_map] at hx
    obtain ⟨y, _, rfl⟩ := hx
    exact Nat.mod_lt _ (by norm_num)
  dec_enc := by intro key block _ hb; exact xorHeadEnc_invol key block hb

/-- A key derivation giving the zero mask to seed `a` and the mask 14 to
every other seed. -/
def wrongSeedH : String → List Nat :=
  fun s => if s = "a" then List.replicate 32 0 else 14 :: List.replicate 31 0

/-- Counterexample to C9 as frozen: decrypting an envelope produced under
seed `a` with the distinct seed `b` neither raises nor recovers the
plaintext — the mis-decrypted block ends in the valid padding byte 1, so
decryption silently returns fifteen bytes different from the original
one-byte plaintext. -/
theorem c9_counterexample_wrong_seed :
    ("a" : String) ≠ "b"
      ∧ decryptData xorHeadCipher wrongSeedH
          (encryptData xorHeadCipher wrongSeedH [1] "a" (List.replicate 16 0)) "b"
        = some [15, 1, 1, 1, 1, 1, 1, 1, 1, 1, 1, 1, 1, 1, 1]
      ∧ decryptData xorHeadCipher wrongSeedH
          (encryptData xorHeadCipher wrongSeedH [1] "a" (List.replicate 16 0)) "b"
        ≠ none
      ∧ decryptData xorHeadCipher wrongSeedH
          (encryptData xorHeadCipher wrongSeedH [1] "a" (List.replicate 16 0)) "b"
        ≠ some [1] :=
  ⟨by decide, by decide, by decide, by decide⟩

/-- Witness for C9 (amended) at a colon-free envelope and a short-IV
envelope. -/
theorem c9_decrypt_explicit_failures_witness :
    colonChar ∉ ("nocolon" : String).toList
      ∧ decryptData idBlockCipher zeroKeyH "nocolon" "s" = none
      ∧ ("00:00" : String).toList = ['0', '0'] ++ colonChar :: ['0', '0']
      ∧ decryptData idBlockCipher zeroKeyH "00:00" "s" = none :=
  ⟨by decide,
   (c9_decrypt_explicit_failures idBlockCipher zeroKeyH "s" "nocolon").1 (by decide),
   by decide,
   (c9_decrypt_explicit_failures idBlockCipher zeroKeyH "s" "00:00").2.1
     ['0', '0'] ['0', '0'] (by decide) (by decide) (Or.inr (by decide))⟩
